import Mathlib

/-!
A verification development for the slice-transform callback adapter of a
rocksdb binding (source file src/slice_transform.rs). The adapter exposes a
host-language trait (SliceTransformFns) to a foreign storage engine through a
table of C-ABI entry points. We give a shallow embedding: foreign memory is a
map from addresses to bytes, a raw slice is a base pointer with a length, the
heap of proxy allocations is an association list from addresses to states, and
each entry point is translated directly from the body of the corresponding
foreign function. A trait method that panics is modelled as returning
Except.error (); a normal return is Except.ok. Theorems then settle
marshalling, ownership and lifecycle properties of the adapter.
-/

set_option autoImplicit false

namespace SliceTransformSpec

/-- A byte as stored in foreign memory (key bytes, name bytes). -/
abbrev Byte := Nat

/-- Foreign memory: a total map from addresses to bytes. -/
abbrev Mem := Nat → Byte

/-- A raw slice view over foreign memory, exactly the data carried by a Rust
slice reference: a base pointer (first component) and a length in bytes
(second component). -/
abbrev Slice := Nat × Nat

/-- Read len bytes of memory m starting at address p. -/
def readBytes (m : Mem) (p : Nat) : Nat → List Byte
  | 0 => []
  | l + 1 => m p :: readBytes m (p + 1) l

/-- The bytes a slice view denotes in memory m. -/
def viewBytes (m : Mem) (s : Slice) : List Byte :=
  readBytes m s.1 s.2

/-- Embedding of slice.from_raw_parts(key as pointer, key_len): the view built
directly over the foreign-supplied buffer pointer, bounded by the supplied
length. No byte is read or copied by the construction itself. -/
def from_raw_parts (p len : Nat) : Slice := (p, len)

/-- The trait SliceTransformFns from the source. The methods receive the key
view (plus read access to foreign memory, since a Rust slice dereferences the
underlying buffer) and may panic, modelled as Except.error (). The source
declares in range with a default body returning true, which cannot panic;
accordingly the field default is Except.ok true. The mutable receiver of the
Rust methods only lets an implementation update private state, which no claim
here concerns, so methods are embedded as functions of the key alone. -/
structure SliceTransformFns where
  transform : Slice → Mem → Except Unit Slice
  in_domain : Slice → Mem → Except Unit Bool
  in_range : Slice → Mem → Except Unit Bool := fun _ _ => Except.ok true

/-- The heap-allocated proxy passed to rocksdb, SliceTransformState: the stored
CString bytes of the name (terminating nul included) and the boxed trait
implementation. -/
structure SliceTransformState where
  name : List Byte
  transform : SliceTransformFns

/-- Embedding of CString.new(bytes): fails when the bytes contain an interior
nul (the source unwraps, i.e. panics, in that case), and otherwise stores the
bytes followed by a terminating nul. -/
def cstringNew (bytes : List Byte) : Option (List Byte) :=
  if 0 ∈ bytes then none else some (bytes ++ [0])

/-- The host heap of proxy allocations: a fresh-address counter and an
association list from addresses to live SliceTransformState values. -/
structure Heap where
  next : Nat
  mem : List (Nat × SliceTransformState)

/-- Well-formedness of the heap: every live address is below the counter, so
the counter is fresh. -/
def heapWF (h : Heap) : Prop := ∀ q ∈ h.mem, q.1 < h.next

/-- Look an address up among the live allocations. -/
def findState : List (Nat × SliceTransformState) → Nat → Option SliceTransformState
  | [], _ => none
  | (q, st) :: rest, p => if q = p then some st else findState rest p

/-- Embedding of Box.into_raw(Box.new(st)): allocate st at a fresh address and
hand back the raw pointer, leaving ownership with whoever later destroys it. -/
def boxIntoRaw (st : SliceTransformState) (h : Heap) : Nat × Heap :=
  (h.next, ⟨h.next + 1, (h.next, st) :: h.mem⟩)

/-- The destructor callback: Box.from_raw(p) followed by dropping the box,
reclaiming ownership of the state and releasing it. Returns none when the
address is not a live allocation (a double free or a foreign misuse, which the
source cannot detect and would be undefined behavior there). -/
def destructor (p : Nat) (h : Heap) : Option Heap :=
  match findState h.mem p with
  | none => none
  | some _ => some ⟨h.next, h.mem.filter (fun q => q.1 != p)⟩

/-- Marshal a host bool to the single foreign ABI byte, the Rust cast of bool
to an 8-bit unsigned integer: true to 1, false to 0. -/
def b2u8 (b : Bool) : Nat := if b then 1 else 0

/-- The name entry point after the pointer has been dereferenced: returns the
stored nul-terminated name bytes (the source returns the address of the stored
CString; we identify the returned pointer with the bytes it addresses, which
live exactly as long as the state). -/
def get_name_entry (ts : SliceTransformState) : List Byte :=
  ts.name

/-- The transform entry point after the pointer has been dereferenced: builds
the key view with from_raw_parts, calls the contract's transform, and on a
normal return writes the returned view's length through the dest_len out
parameter (second component of the result) while returning the view's base
pointer (first component). The source has no panic handler, so a panic of the
implementation is propagated. -/
def transform_entry (ts : SliceTransformState) (m : Mem) (kp kl : Nat) :
    Except Unit (Nat × Nat) :=
  match ts.transform.transform (from_raw_parts kp kl) m with
  | Except.error e => Except.error e
  | Except.ok pre => Except.ok (pre.1, pre.2)

/-- The in domain entry point after the pointer has been dereferenced: builds
the key view with from_raw_parts, calls the contract's in domain capability and
casts the bool to the foreign ABI byte. No panic handler. -/
def in_domain_entry (ts : SliceTransformState) (m : Mem) (kp kl : Nat) :
    Except Unit Nat :=
  match ts.transform.in_domain (from_raw_parts kp kl) m with
  | Except.error e => Except.error e
  | Except.ok b => Except.ok (b2u8 b)

/-- The in range entry point after the pointer has been dereferenced: same
shape as the in domain entry point. No panic handler. -/
def in_range_entry (ts : SliceTransformState) (m : Mem) (kp kl : Nat) :
    Except Unit Nat :=
  match ts.transform.in_range (from_raw_parts kp kl) m with
  | Except.error e => Except.error e
  | Except.ok b => Except.ok (b2u8 b)

/-- The name entry point with the opaque-pointer dereference made explicit:
the borrow of the state from the untyped pointer is the lookup; the heap is
returned unchanged, since the source body performs no allocation and no
release. none models a dereference of a dead pointer. -/
def get_name_c (h : Heap) (p : Nat) : Option (List Byte × Heap) :=
  match findState h.mem p with
  | none => none
  | some ts => some (get_name_entry ts, h)

/-- The transform entry point with the opaque-pointer dereference made
explicit; the heap is returned unchanged, since the source body performs no
allocation and no release: the returned pointer aims into the key's storage. -/
def transform_c (h : Heap) (p : Nat) (m : Mem) (kp kl : Nat) :
    Option (Except Unit (Nat × Nat) × Heap) :=
  match findState h.mem p with
  | none => none
  | some ts => some (transform_entry ts m kp kl, h)

/-- The in domain entry point with the opaque-pointer dereference made
explicit; heap unchanged. -/
def in_domain_c (h : Heap) (p : Nat) (m : Mem) (kp kl : Nat) :
    Option (Except Unit Nat × Heap) :=
  match findState h.mem p with
  | none => none
  | some ts => some (in_domain_entry ts m kp kl, h)

/-- The in range entry point with the opaque-pointer dereference made
explicit; heap unchanged. -/
def in_range_c (h : Heap) (p : Nat) (m : Mem) (kp kl : Nat) :
    Option (Except Unit Nat × Heap) :=
  match findState h.mem p with
  | none => none
  | some ts => some (in_range_entry ts m kp kl, h)

/-- The handle returned to the host caller: it wraps the engine-native raw
pointer and nothing else. -/
structure SliceTransform where
  inner : Nat

/-- SliceTransform.create from the source: convert the name with CString.new
and unwrap (an interior nul therefore panics, Except.error ()), box the proxy
state and leak it with Box.into_raw, and register the proxy pointer together
with the five entry points through the engine's create call (an external
collaborator; the engine retains the proxy pointer). The result is the proxy
pointer and the updated host heap. -/
def SliceTransform.create (nm : List Byte) (fns : SliceTransformFns) (h : Heap) :
    Except Unit (Nat × Heap) :=
  match cstringNew nm with
  | none => Except.error ()
  | some c_name => Except.ok (boxIntoRaw ⟨c_name, fns⟩ h)

/-- SliceTransform.create_fixed_prefix from the source (final word of the name
abbreviated): the whole body is one call into the engine-native constructor
with the requested length; the value ni stands for the engine's returned
native pointer, an external collaborator's datum. No host-language state is
created: the heap is untouched. -/
def SliceTransform.create_fixed_pfx (_len : Nat) (ni : Nat) (h : Heap) :
    SliceTransform × Heap :=
  (⟨ni⟩, h)

/-- SliceTransform.create_noop from the source: delegates entirely to the
engine-native constructor; ni stands for the engine's returned native pointer.
No host-language state is created. -/
def SliceTransform.create_noop (ni : Nat) (h : Heap) : SliceTransform × Heap :=
  (⟨ni⟩, h)

/-- Dropping a SliceTransform handle on the host side. The source deliberately
implements no Drop for the handle (the NB comment in the source records the
intent), and a struct holding only a raw pointer has no drop glue, so dropping
the handle performs no heap operation at all. -/
def SliceTransform.hostDrop (_ : SliceTransform) (h : Heap) : Heap := h

/-- One invocation the engine can make through the callback table, destruction
excluded: the name, transform, in domain and in range entry points with their
foreign arguments. -/
inductive EntryCall where
  | cName : EntryCall
  | cTransform : Mem → Nat → Nat → EntryCall
  | cInDomain : Mem → Nat → Nat → EntryCall
  | cInRange : Mem → Nat → Nat → EntryCall

/-- The host heap after the engine drives one non-destroy entry point at the
opaque pointer p: whatever heap the entry point hands back (the entry points
return the heap they were given; a dead pointer leaves the heap unchanged as
well). -/
def callHeap (p : Nat) (h : Heap) : EntryCall → Heap
  | EntryCall.cName =>
    match get_name_c h p with
    | none => h
    | some (_, h1) => h1
  | EntryCall.cTransform m kp kl =>
    match transform_c h p m kp kl with
    | none => h
    | some (_, h1) => h1
  | EntryCall.cInDomain m kp kl =>
    match in_domain_c h p m kp kl with
    | none => h
    | some (_, h1) => h1
  | EntryCall.cInRange m kp kl =>
    match in_range_c h p m kp kl with
    | none => h
    | some (_, h1) => h1

/-- The host heap after a whole sequence of non-destroy entry-point calls. -/
def runCalls (p : Nat) (cs : List EntryCall) (h : Heap) : Heap :=
  cs.foldl (callHeap p) h

/-- The contract obligation on transform, from the trait documentation and the
lifetime of its signature: on a normal return the result is a view into the
key's own storage, contiguous, starting no earlier than the key and ending no
later. -/
def transformSubview (fns : SliceTransformFns) : Prop :=
  ∀ (key : Slice) (m : Mem) (pre : Slice),
    fns.transform key m = Except.ok pre →
    key.1 ≤ pre.1 ∧ pre.1 + pre.2 ≤ key.1 + key.2

/-- A concrete well-behaved implementation used by witnesses: transform is the
identity view, in domain always holds, in range left at its default. -/
def fns0 : SliceTransformFns :=
  { transform := fun k _ => Except.ok k
    in_domain := fun _ _ => Except.ok true }

/-- A concrete implementation whose in domain panics on every key, used to
exhibit what the adapter does with a panic. -/
def panicFns : SliceTransformFns :=
  { transform := fun k _ => Except.ok k
    in_domain := fun _ _ => Except.error ()
    in_range := fun _ _ => Except.ok true }

/-- A proxy state around the panicking implementation. -/
def panicState : SliceTransformState :=
  { name := [112, 0], transform := panicFns }

/-- An all-zero foreign memory for concrete evaluations. -/
def mem0 : Mem := fun _ => 0

/-- A concrete proxy state: the name is the letter A with its terminating nul,
the implementation is fns0. This is exactly the state SliceTransform.create
builds from the one-letter name. -/
def state0 : SliceTransformState :=
  { name := [65, 0], transform := fns0 }

/-- A concrete one-allocation heap holding state0 at address 0. -/
def heap1 : Heap := ⟨1, [(0, state0)]⟩

/-- The lifecycle conclusion for a freshly created proxy at address p: the
address was not previously live, exactly one allocation happened, the state is
live, any sequence of non-destroy entry-point calls leaves the heap unchanged,
and a single destroy afterwards releases the state, restoring the previous
allocation list, after which a second destroy finds nothing to free. -/
def lifecycleOk (h h₁ : Heap) (p : Nat) (cs : List EntryCall) : Prop :=
  findState h.mem p = none ∧
  h₁.next = h.next + 1 ∧
  h₁.mem.length = h.mem.length + 1 ∧
  (findState h₁.mem p).isSome = true ∧
  runCalls p cs h₁ = h₁ ∧
  ∃ h₂, destructor p (runCalls p cs h₁) = some h₂ ∧
    findState h₂.mem p = none ∧ h₂.mem = h.mem ∧ destructor p h₂ = none

/-- The round-trip conclusion for transform on a key view at kp of length kl
whose contract result is the view pre: the result lies inside the key's
storage, re-slicing the key's bytes at the result's offset and length yields
exactly the result's bytes, and the heap-level entry point returns the
marshalled result with the heap unchanged (nothing allocated, nothing
freed). -/
def subrangeRoundtrip (h : Heap) (p : Nat) (m : Mem) (kp kl : Nat)
    (pre : Slice) : Prop :=
  kp ≤ pre.1 ∧ pre.1 + pre.2 ≤ kp + kl ∧
  readBytes m pre.1 pre.2 =
    List.take pre.2 (List.drop (pre.1 - kp) (readBytes m kp kl)) ∧
  transform_c h p m kp kl = some (Except.ok (pre.1, pre.2), h)

/-- The name conclusion: after any sequence of non-destroy calls, the name
entry point still hands back the bytes of the name supplied at construction
followed by the terminating nul, with the heap unchanged, and the supplied
name had no interior nul. -/
def nameOk (h₁ : Heap) (p : Nat) (cs : List EntryCall) (nm : List Byte) : Prop :=
  get_name_c (runCalls p cs h₁) p = some (nm ++ [0], runCalls p cs h₁) ∧
  (0 : Byte) ∉ nm

/-! Helper lemmas about the embedding. -/

theorem readBytes_length (m : Mem) (p n : Nat) : (readBytes m p n).length = n := by
  induction n generalizing p with
  | zero => rfl
  | succ l ih => simp [readBytes, ih]

theorem readBytes_drop (m : Mem) (off : Nat) :
    ∀ (p n : Nat), off ≤ n →
      List.drop off (readBytes m p n) = readBytes m (p + off) (n - off) := by
  induction off with
  | zero => intro p n _; simp
  | succ o ih =>
    intro p n hle
    cases n with
    | zero => exact absurd hle (by omega)
    | succ l =>
      have hol : o ≤ l := by omega
      have h1 : List.drop (o + 1) (readBytes m p (l + 1))
          = List.drop o (readBytes m (p + 1) l) := by simp [readBytes]
      have h2 : p + 1 + o = p + (o + 1) := by omega
      have h3 : l - o = l + 1 - (o + 1) := by omega
      rw [h1, ih (p + 1) l hol, h2, h3]

theorem readBytes_take (m : Mem) (l : Nat) :
    ∀ (p n : Nat), l ≤ n → List.take l (readBytes m p n) = readBytes m p l := by
  induction l with
  | zero => intro p n _; simp [readBytes]
  | succ j ih =>
    intro p n hle
    cases n with
    | zero => exact absurd hle (by omega)
    | succ k =>
      have hjk : j ≤ k := by omega
      simp only [readBytes, List.take_succ_cons]
      rw [ih (p + 1) k hjk]

theorem findState_eq_none_of_fresh (l : List (Nat × SliceTransformState)) (p : Nat)
    (hp : ∀ q ∈ l, q.1 ≠ p) : findState l p = none := by
  induction l with
  | nil => rfl
  | cons a rest ih =>
    obtain ⟨q, st⟩ := a
    have hq : q ≠ p := hp (q, st) (List.mem_cons_self _ _)
    simp only [findState, if_neg hq]
    exact ih fun r hr => hp r (List.mem_cons_of_mem _ hr)

theorem filter_ne_of_fresh (l : List (Nat × SliceTransformState)) (p : Nat)
    (hp : ∀ q ∈ l, q.1 ≠ p) : l.filter (fun q => q.1 != p) = l := by
  induction l with
  | nil => rfl
  | cons a rest ih =>
    have ha : (a.1 != p) = true := by
      simp [bne_iff_ne]
      exact hp a (List.mem_cons_self _ _)
    simp only [List.filter_cons, ha, if_pos]
    rw [ih fun r hr => hp r (List.mem_cons_of_mem _ hr)]

theorem callHeap_preserves (p : Nat) (h : Heap) (c : EntryCall) :
    callHeap p h c = h := by
  cases c with
  | cName =>
    simp only [callHeap, get_name_c]
    cases findState h.mem p <;> simp
  | cTransform m kp kl =>
    simp only [callHeap, transform_c]
    cases findState h.mem p <;> simp
  | cInDomain m kp kl =>
    simp only [callHeap, in_domain_c]
    cases findState h.mem p <;> simp
  | cInRange m kp kl =>
    simp only [callHeap, in_range_c]
    cases findState h.mem p <;> simp

theorem runCalls_preserves (p : Nat) (cs : List EntryCall) (h : Heap) :
    runCalls p cs h = h := by
  induction cs generalizing h with
  | nil => rfl
  | cons c rest ih =>
    simp only [runCalls, List.foldl_cons, callHeap_preserves] at *
    exact ih h

theorem create_ok_inv (nm : List Byte) (fns : SliceTransformFns) (h : Heap)
    (p : Nat) (h₁ : Heap)
    (hc : SliceTransform.create nm fns h = Except.ok (p, h₁)) :
    (0 : Byte) ∉ nm ∧ p = h.next ∧
    h₁ = ⟨h.next + 1, (h.next, ⟨nm ++ [0], fns⟩) :: h.mem⟩ := by
  by_cases h0 : (0 : Byte) ∈ nm
  · simp only [SliceTransform.create, cstringNew, if_pos h0] at hc
    exact Except.noConfusion hc
  · simp only [SliceTransform.create, cstringNew, if_neg h0, boxIntoRaw,
      Except.ok.injEq, Prod.mk.injEq] at hc
    obtain ⟨hp, hh⟩ := hc
    exact ⟨h0, hp.symm, hh.symm⟩

theorem subview_fns0 : transformSubview fns0 := by
  intro key m pre hok
  simp only [fns0, Except.ok.injEq] at hok
  subst hok
  exact ⟨Nat.le_refl _, Nat.le_refl _⟩

/-! Theorems settling the claims. -/

/-- C1, counterexample: against the claim that a panic of the implementation
is caught by the adapter and turned into a safe default (in domain reporting
false, which marshals to the byte 0), an implementation whose in domain panics
makes the in domain entry point itself end in the panic, not in the safe
default byte. -/
theorem c1_counterexample :
    in_domain_entry panicState mem0 0 0 = Except.error () ∧
    ¬ in_domain_entry panicState mem0 0 0 = Except.ok (b2u8 false) := by
  constructor
  · rfl
  · intro hax
    simp only [in_domain_entry, panicState, panicFns, from_raw_parts] at hax
    exact Except.noConfusion hax

/-- C1, amended: the adapter contains nothing at the entry points; whenever
the implementation panics during transform, in domain or in range, the entry
point propagates exactly that panic across the foreign-call boundary instead
of converting it into a safe default return value. -/
theorem c1_panic_propagates (ts : SliceTransformState) (m : Mem)
    (kp kl : Nat) (e : Unit) :
    (ts.transform.transform (from_raw_parts kp kl) m = Except.error e →
      transform_entry ts m kp kl = Except.error e) ∧
    (ts.transform.in_domain (from_raw_parts kp kl) m = Except.error e →
      in_domain_entry ts m kp kl = Except.error e) ∧
    (ts.transform.in_range (from_raw_parts kp kl) m = Except.error e →
      in_range_entry ts m kp kl = Except.error e) := by
  refine ⟨?_, ?_, ?_⟩ <;> intro hx
  · simp [transform_entry, hx]
  · simp [in_domain_entry, hx]
  · simp [in_range_entry, hx]

/-- C1, witness for the amended theorem at the concrete panicking state. -/
theorem c1_witness :
    in_domain_entry panicState mem0 0 0 = Except.error () :=
  (c1_panic_propagates panicState mem0 0 0 ()).2.1 rfl

/-- C3: for a live state and any key buffer, the transform entry point
unmarshals the key, calls the contract's transform, writes the returned view's
length through the dest_len out parameter and returns the view's base pointer
(its first byte's address). -/
theorem c3_transform_marshals (ts : SliceTransformState) (m : Mem)
    (kp kl : Nat) (pre : Slice)
    (hok : ts.transform.transform (from_raw_parts kp kl) m = Except.ok pre) :
    transform_entry ts m kp kl = Except.ok (pre.1, pre.2) := by
  simp [transform_entry, hok]

/-- C3, witness: the identity implementation on the key at 3 of length 5. -/
theorem c3_witness : transform_entry state0 mem0 3 5 = Except.ok (3, 5) :=
  c3_transform_marshals state0 mem0 3 5 (3, 5) rfl

/-- C5: the in domain and in range entry points unmarshal the key, call the
contract's boolean capability, and return the bool as a single foreign ABI
byte, 1 for true and 0 for false. -/
theorem c5_bool_marshals (ts : SliceTransformState) (m : Mem) (kp kl : Nat)
    (b c : Bool)
    (hd : ts.transform.in_domain (from_raw_parts kp kl) m = Except.ok b)
    (hr : ts.transform.in_range (from_raw_parts kp kl) m = Except.ok c) :
    in_domain_entry ts m kp kl = Except.ok (if b then 1 else 0) ∧
    in_range_entry ts m kp kl = Except.ok (if c then 1 else 0) := by
  constructor
  · simp [in_domain_entry, hd, b2u8]
  · simp [in_range_entry, hr, b2u8]

/-- C5, witness: the concrete implementation answering true marshals to the
byte 1 at both boolean entry points. -/
theorem c5_witness :
    in_domain_entry state0 mem0 0 0 = Except.ok (if true then 1 else 0) ∧
    in_range_entry state0 mem0 0 0 = Except.ok (if true then 1 else 0) :=
  c5_bool_marshals state0 mem0 0 0 true true rfl rfl

/-- C6: each callback invocation passes the contract exactly the view built by
from_raw_parts over the foreign-supplied buffer pointer: its base address is
that pointer itself and its length is exactly the supplied length argument, so
reading through the view reads the foreign buffer in place and no byte is
copied during unmarshalling; each entry point is precisely the contract call
on that view followed by result marshalling. -/
theorem c6_view_over_buffer (ts : SliceTransformState) (m : Mem)
    (kp kl : Nat) :
    (from_raw_parts kp kl).1 = kp ∧ (from_raw_parts kp kl).2 = kl ∧
    viewBytes m (from_raw_parts kp kl) = readBytes m kp kl ∧
    transform_entry ts m kp kl =
      Except.map (fun s : Slice => (s.1, s.2))
        (ts.transform.transform (from_raw_parts kp kl) m) ∧
    in_domain_entry ts m kp kl =
      Except.map b2u8 (ts.transform.in_domain (from_raw_parts kp kl) m) ∧
    in_range_entry ts m kp kl =
      Except.map b2u8 (ts.transform.in_range (from_raw_parts kp kl) m) := by
  refine ⟨rfl, rfl, rfl, ?_, ?_, ?_⟩
  · cases hx : ts.transform.transform (from_raw_parts kp kl) m <;>
      simp [transform_entry, hx, Except.map]
  · cases hx : ts.transform.in_domain (from_raw_parts kp kl) m <;>
      simp [in_domain_entry, hx, Except.map]
  · cases hx : ts.transform.in_range (from_raw_parts kp kl) m <;>
      simp [in_range_entry, hx, Except.map]

/-- C8: when the implementor supplies transform and in domain but does not
override in range, the default in range implementation returns true (and
returns it normally, it cannot panic) on every key. -/
theorem c8_default_in_range (t : Slice → Mem → Except Unit Slice)
    (d : Slice → Mem → Except Unit Bool) (key : Slice) (m : Mem) :
    SliceTransformFns.in_range { transform := t, in_domain := d } key m =
      Except.ok true := rfl

/-- C10: SliceTransform.create panics exactly on names with an interior nul
byte (the CString conversion is unwrapped), and for every nul-free name it
succeeds, storing the nul-terminated name and the implementation in a single
fresh heap allocation whose address is handed to the engine. -/
theorem c10_create_nul (nm : List Byte) (fns : SliceTransformFns) (h : Heap) :
    ((0 : Byte) ∈ nm → SliceTransform.create nm fns h = Except.error ()) ∧
    ((0 : Byte) ∉ nm → SliceTransform.create nm fns h =
      Except.ok (h.next, ⟨h.next + 1, (h.next, ⟨nm ++ [0], fns⟩) :: h.mem⟩)) := by
  constructor
  · intro h0
    simp [SliceTransform.create, cstringNew, if_pos h0]
  · intro h0
    simp [SliceTransform.create, cstringNew, if_neg h0, boxIntoRaw]

/-- C2: a created proxy state is allocated exactly once at construction at a
fresh address; every non-destroy entry point only borrows the state through
the opaque pointer, leaving the heap untouched, and a single destroy after any
sequence of such calls releases exactly that allocation, after which a second
destroy finds nothing — so one destroy never double-frees. -/
theorem c2_lifecycle (h : Heap) (nm : List Byte) (fns : SliceTransformFns)
    (p : Nat) (h₁ : Heap) (cs : List EntryCall) (hwf : heapWF h)
    (hc : SliceTransform.create nm fns h = Except.ok (p, h₁)) :
    lifecycleOk h h₁ p cs := by
  obtain ⟨h0, hp, hh⟩ := create_ok_inv nm fns h p h₁ hc
  subst hp
  subst hh
  have hfresh : ∀ q ∈ h.mem, q.1 ≠ h.next := fun q hq => Nat.ne_of_lt (hwf q hq)
  have hnone : findState h.mem h.next = none := findState_eq_none_of_fresh _ _ hfresh
  have hfilter : h.mem.filter (fun q => q.1 != h.next) = h.mem :=
    filter_ne_of_fresh _ _ hfresh
  refine ⟨hnone, rfl, by simp, by simp [findState], runCalls_preserves _ _ _, ?_⟩
  refine ⟨⟨h.next + 1, h.mem⟩, ?_, hnone, rfl, ?_⟩
  · rw [runCalls_preserves]
    simp only [destructor, findState, if_pos rfl, List.filter_cons]
    simp [hfilter]
  · simp only [destructor, hnone]

/-- C2, witness: the empty heap, the one-letter name and the identity
implementation, with no intervening entry-point calls. -/
theorem c2_witness : lifecycleOk ⟨0, []⟩ heap1 0 [] :=
  c2_lifecycle ⟨0, []⟩ [65] fns0 0 heap1 []
    (fun q hq => absurd hq (List.not_mem_nil q)) rfl

/-- C4: for a contract-conforming implementation (the trait requires the
returned view to live inside the key passed in) and a key in its domain, the
view the transform entry point hands the engine is a contiguous sub-range of
the key's own storage: re-slicing the key's bytes at the returned offset and
length yields exactly the returned bytes, and the heap-level entry point
neither allocates nor frees anything for it. -/
theorem c4_subrange (h : Heap) (p : Nat) (ts : SliceTransformState) (m : Mem)
    (kp kl : Nat) (pre : Slice)
    (hsub : transformSubview ts.transform)
    (_hdom : ts.transform.in_domain (from_raw_parts kp kl) m = Except.ok true)
    (hfind : findState h.mem p = some ts)
    (hok : ts.transform.transform (from_raw_parts kp kl) m = Except.ok pre) :
    subrangeRoundtrip h p m kp kl pre := by
  obtain ⟨hlo, hhi⟩ := hsub (from_raw_parts kp kl) m pre hok
  simp only [from_raw_parts] at hlo hhi
  refine ⟨hlo, hhi, ?_, ?_⟩
  · have hoff : pre.1 - kp ≤ kl := by omega
    rw [readBytes_drop m (pre.1 - kp) kp kl hoff]
    have heq : kp + (pre.1 - kp) = pre.1 := by omega
    rw [heq]
    have htk : pre.2 ≤ kl - (pre.1 - kp) := by omega
    rw [readBytes_take m pre.2 pre.1 (kl - (pre.1 - kp)) htk]
  · simp [transform_c, hfind, transform_entry, hok]

/-- C4, witness: the identity implementation on the full key at 3 of
length 2. -/
theorem c4_witness : subrangeRoundtrip heap1 0 mem0 3 2 (3, 2) :=
  c4_subrange heap1 0 state0 mem0 3 2 (3, 2) subview_fns0 rfl rfl rfl

/-- C7: for every accepted name and any sequence of non-destroy entry-point
calls during the registration lifetime, the name entry point returns the
stored nul-terminated name, whose bytes are exactly the name supplied at
construction followed by the terminating nul. -/
theorem c7_name (h : Heap) (nm : List Byte) (fns : SliceTransformFns)
    (p : Nat) (h₁ : Heap) (cs : List EntryCall)
    (hc : SliceTransform.create nm fns h = Except.ok (p, h₁)) :
    nameOk h₁ p cs nm := by
  obtain ⟨h0, hp, hh⟩ := create_ok_inv nm fns h p h₁ hc
  subst hp
  subst hh
  refine ⟨?_, h0⟩
  rw [runCalls_preserves]
  simp [get_name_c, findState, get_name_entry]

/-- C7, witness: the one-letter name A survives as A followed by nul. -/
theorem c7_witness : nameOk heap1 0 [] [65] :=
  c7_name ⟨0, []⟩ [65] fns0 0 heap1 [] rfl

/-- C9: dropping a SliceTransform handle on the host side runs no destructor
at all — every live proxy state survives it unchanged — the engine-native
constructors for the fixed-length and no-op transforms create no host-language
state whatsoever, and the destructor callback is the release path that does
free a live state. -/
theorem c9_no_host_drop (s : SliceTransform) (h : Heap) (len ni ni2 p : Nat)
    (ts : SliceTransformState) (hlive : findState h.mem p = some ts) :
    SliceTransform.hostDrop s h = h ∧
    (SliceTransform.create_fixed_pfx len ni h).2 = h ∧
    (SliceTransform.create_noop ni2 h).2 = h ∧
    findState (SliceTransform.hostDrop s h).mem p = some ts ∧
    (destructor p h).isSome = true := by
  refine ⟨rfl, rfl, rfl, hlive, ?_⟩
  simp [destructor, hlive]

/-- C9, witness: a handle dropped over the one-allocation heap. -/
theorem c9_witness :
    SliceTransform.hostDrop ⟨7⟩ heap1 = heap1 ∧
    (SliceTransform.create_fixed_pfx 4 8 heap1).2 = heap1 ∧
    (SliceTransform.create_noop 9 heap1).2 = heap1 ∧
    findState (SliceTransform.hostDrop ⟨7⟩ heap1).mem 0 = some state0 ∧
    (destructor 0 heap1).isSome = true :=
  c9_no_host_drop ⟨7⟩ heap1 4 8 9 0 state0 rfl

/-- C10, witness: a name with an interior nul panics, a nul-free name
allocates the state. -/
theorem c10_witness :
    SliceTransform.create [65, 0, 66] fns0 ⟨0, []⟩ = Except.error () ∧
    SliceTransform.create [65] fns0 ⟨0, []⟩ =
      Except.ok (0, ⟨1, [(0, ⟨[65] ++ [0], fns0⟩)]⟩) :=
  ⟨(c10_create_nul [65, 0, 66] fns0 ⟨0, []⟩).1 (by decide),
   (c10_create_nul [65] fns0 ⟨0, []⟩).2 (by decide)⟩

end SliceTransformSpec
